import Mathlib

/-!
A shallow embedding of `scripts/generate_payload.py`, the CI script that
assembles a pull-request payload (changed files, patches, commit messages,
linked issues, repository metadata) and writes it as JSON.

Conventions of the embedding:
* Python strings are Lean `String`s; character-level processing works on
  `String.data` (`List Char`).
* The process environment is a function `String → Option String`
  (`none` = variable unset); Python truthiness of `os.environ.get`
  results is `envTruthy` (`none` and the empty string are falsy).
* External effects (subprocess results, HTTP responses, the file system)
  are explicit inputs threaded through the functions that the script
  obtains them from, so every function is a pure function of the world
  it observes.
* A caught-and-converted Python exception is an `Option`/sentinel value;
  an uncaught exception is the `PyResult.exn` outcome.
-/

namespace GeneratePayload

/-- Result of running an external command: captured stdout on success, or
an exit code plus captured stderr on failure
(`subprocess.check_output` raising `CalledProcessError`). -/
inductive CmdResult where
  | ok (stdout : String)
  | err (code : Nat) (stderr : String)
deriving DecidableEq, Repr

/-- The diagnostic line printed by `run_command` on failure:
the command words joined by spaces, then the captured stderr. -/
def runErrorLine (command : List String) (stderr : String) : String :=
  "Error executing " ++ String.intercalate " " command ++ ": " ++ stderr

/-- Model of `run_command` (generate_payload.py lines 8-14): execute the command
and return its stdout; on `CalledProcessError`, print a diagnostic to
stderr and return the empty string.  The pair is (returned string,
diagnostic lines emitted to stderr). -/
def run_command (command : List String) (r : CmdResult) : String × List String :=
  match r with
  | .ok out => (out, [])
  | .err _ stderr => ("", [runErrorLine command stderr])

/-- The git world: what each invoked git command would produce. -/
structure GitWorld where
  exec : List String → CmdResult

/-- The string a `run_command` call inside the script observes. -/
def runOut (w : GitWorld) (command : List String) : String :=
  (run_command command (w.exec command)).fst

/-- Model of the `status_map` lookup with default `modified` of the git fallback
(generate_payload.py line 295-296): single-letter name-status codes to the
canonical vocabulary. -/
def git_status_map (c : Char) : String :=
  if c = 'A' then "added"
  else if c = 'M' then "modified"
  else if c = 'D' then "deleted"
  else if c = 'R' then "renamed"
  else "modified"

/-- Python `split(sep)` for a one-character separator, Python semantics:
splits at every occurrence, keeping empty parts; the result is never
empty. -/
def splitOnChar (sep : Char) : List Char → List (List Char)
  | [] => [[]]
  | c :: rest =>
    match splitOnChar sep rest with
    | [] => [[c]]
    | p :: ps => if c = sep then [] :: p :: ps else (c :: p) :: ps

/-- Python `str.strip()`: drop leading and trailing whitespace. -/
def stripChars (l : List Char) : List Char :=
  ((l.dropWhile Char.isWhitespace).reverse.dropWhile Char.isWhitespace).reverse

/-- Python `s.strip()` on a `String`. -/
def pyStrip (s : String) : String :=
  String.mk (stripChars s.data)

/-- One line of `git diff --name-status` output
(generate_payload.py lines 291-293):
`parts = line.split('\t'); status_code = parts[0][0]; filename = parts[-1]`.
`none` models the `IndexError` raised when the first tab-separated field
is empty. -/
def parseNameStatusLine (line : List Char) : Option (Char × List Char) :=
  match splitOnChar '\t' line with
  | [] => none
  | p :: ps =>
    match p with
    | [] => none
    | c :: _ => some (c, (p :: ps).getLastD [])

/-- Canonical per-file change record of the payload. -/
structure FileChange where
  filename : String
  status : String
  patch : String
deriving DecidableEq, Repr

/-- One iteration of the git-fallback file loop
(generate_payload.py lines 288-305): parse a name-status line, fetch the
per-file patch, and build the `FileChange`.  `none` models the uncaught
`IndexError` on a line whose first field is empty. -/
def lineToFile (w : GitWorld) (merge_base head_ref : String) (line : String) :
    Option FileChange :=
  match parseNameStatusLine line.data with
  | none => none
  | some (status_code, fname) =>
    let filename := String.mk fname
    let patch := runOut w ["git", "diff", "-U10", merge_base, head_ref, "--", filename]
    some { filename := filename, status := git_status_map status_code, patch := patch }

/-- The process environment: `os.environ.get` yields `none` for an unset
variable. -/
def Env : Type := String → Option String

/-- Python truthiness of `os.environ.get(k)`: unset and the empty string
are falsy. -/
def envTruthy (env : Env) (k : String) : Bool :=
  match env k with
  | none => false
  | some s => s != ""

/-- The two CI platforms the script recognizes. -/
inductive Platform where
  | github
  | bitbucket
deriving DecidableEq, Repr

/-- Model of `detect_platform` (generate_payload.py lines 17-24): GitHub if
`GITHUB_ACTIONS` is truthy, else Bitbucket if `BITBUCKET_PIPELINE_UUID`
is truthy, else `none`. -/
def detect_platform (env : Env) : Option Platform :=
  if envTruthy env "GITHUB_ACTIONS" then some .github
  else if envTruthy env "BITBUCKET_PIPELINE_UUID" then some .bitbucket
  else none

/-- The normalized fetch result `{'files': ..., 'commit_messages': ...}`. -/
structure PrData where
  files : List FileChange
  commit_messages : List String
deriving DecidableEq, Repr

/-- Outcome of a Python computation that the script does not guard with a
`try`: either a value or an uncaught exception. -/
inductive PyResult (α : Type) where
  | ok (a : α)
  | exn
deriving DecidableEq, Repr

/-- Model of `fetch_pr_data_via_git` (generate_payload.py lines 262-311): the git
fallback.  Returns `.ok none` when `BASE_REF`/`HEAD_REF` are missing,
`.exn` when a diff line raises (empty first field), otherwise the
normalized data. -/
def fetch_pr_data_via_git (env : Env) (w : GitWorld) : PyResult (Option PrData) :=
  if !envTruthy env "BASE_REF" || !envTruthy env "HEAD_REF" then .ok none
  else
    let base_ref := (env "BASE_REF").getD ""
    let head_ref := (env "HEAD_REF").getD ""
    let mb0 := pyStrip (runOut w ["git", "merge-base", base_ref, head_ref])
    let merge_base := if mb0 = "" then base_ref else mb0
    let output := runOut w ["git", "diff", "--name-status", merge_base, head_ref]
    let lines := (splitOnChar '\n' (pyStrip output).data).map String.mk
    match (lines.filter (· != "")).mapM (lineToFile w merge_base head_ref) with
    | none => .exn
    | some files =>
      let log_output := runOut w ["git", "log", "--format=%s", merge_base ++ ".." ++ head_ref]
      let commit_messages :=
        ((splitOnChar '\n' (pyStrip log_output).data).map String.mk).filter (· != "")
      .ok (some { files := files, commit_messages := commit_messages })

/-- The ASCII upper-to-lower case table. -/
def lcTable : List (Char × Char) :=
  [('A', 'a'), ('B', 'b'), ('C', 'c'), ('D', 'd'), ('E', 'e'), ('F', 'f'),
   ('G', 'g'), ('H', 'h'), ('I', 'i'), ('J', 'j'), ('K', 'k'), ('L', 'l'),
   ('M', 'm'), ('N', 'n'), ('O', 'o'), ('P', 'p'), ('Q', 'q'), ('R', 'r'),
   ('S', 's'), ('T', 't'), ('U', 'u'), ('V', 'v'), ('W', 'w'), ('X', 'x'),
   ('Y', 'y'), ('Z', 'z')]

/-- ASCII lower-casing, the case folding the `(?i)` flag performs on the
ASCII keywords and text the regex of `extract_linked_issues` deals with. -/
def lc (c : Char) : Char :=
  ((lcTable.find? (fun p => p.1 = c)).map Prod.snd).getD c

/-- The alternatives of the closure-keyword group of the regex
`(?i)(close|closes|closed|fix|fixes|fixed|resolve|resolves|resolved)\s+#(\d+)`
(generate_payload.py line 86), in the order the regex engine tries them. -/
def closureKeywords : List (List Char) :=
  ["close".data, "closes".data, "closed".data, "fix".data, "fixes".data,
   "fixed".data, "resolve".data, "resolves".data, "resolved".data]

/-- Match one keyword alternative case-insensitively at the head of the
input; on success, the captured original-case characters and the rest. -/
def matchKw : List Char → List Char → Option (List Char × List Char)
  | [], rest => some ([], rest)
  | _ :: _, [] => none
  | k :: ks, c :: cs =>
    if lc c = k then
      match matchKw ks cs with
      | some (cap, rest) => some (c :: cap, rest)
      | none => none
    else none

/-- Split off the maximal run of characters satisfying `p`. -/
def takeWhileCh (p : Char → Bool) : List Char → List Char × List Char
  | [] => ([], [])
  | c :: cs =>
    if p c then
      let (a, b) := takeWhileCh p cs
      (c :: a, b)
    else ([], c :: cs)

/-- Greedy `X+` for a character class: at least one character. -/
def takeWhile1 (p : Char → Bool) (l : List Char) : Option (List Char × List Char) :=
  match l with
  | [] => none
  | c :: cs =>
    if p c then
      let (a, b) := takeWhileCh p cs
      some (c :: a, b)
    else none

/-- Try the whole pattern with one fixed keyword alternative at the head
of the input: keyword, `\s+`, `#`, `\d+`.  On success, the captured
keyword text, the captured digits, and the rest of the input. -/
def matchKwPattern (kw l : List Char) : Option (List Char × List Char × List Char) :=
  match matchKw kw l with
  | none => none
  | some (cap, r1) =>
    match takeWhile1 Char.isWhitespace r1 with
    | none => none
    | some (_, r2) =>
      match r2 with
      | '#' :: r3 =>
        match takeWhile1 Char.isDigit r3 with
        | none => none
        | some (ds, r4) => some (cap, ds, r4)
      | _ => none

/-- Try the keyword alternatives in order at the head of the input, as
the regex alternation does. -/
def matchAnyKw (l : List Char) : Option (List Char × List Char × List Char) :=
  closureKeywords.findSome? (fun k => matchKwPattern k l)

/-- Scan as `re.findall` does: at each position try a match; on success record
`(keyword, digits)` and resume after it, else advance one character.
`fuel` bounds the recursion (a successful match consumes at least one
character, so `l.length` fuel suffices). -/
def findAllAux : Nat → List Char → List (List Char × List Char)
  | 0, _ => []
  | _, [] => []
  | fuel + 1, c :: cs =>
    match matchAnyKw (c :: cs) with
    | some (cap, ds, rest) => (cap, ds) :: findAllAux fuel rest
    | none => findAllAux fuel cs

/-- All `(keyword, issue-number)` matches of the closure regex over the
text, left to right and non-overlapping. -/
def findAllMatches (l : List Char) : List (List Char × List Char) :=
  findAllAux l.length l

/-- Python `s.replace(pat, rep)` for a non-empty pattern: replace every
non-overlapping occurrence, left to right. -/
def replaceAllAux (pat rep : List Char) : Nat → List Char → List Char
  | 0, l => l
  | fuel + 1, l =>
    if pat.isPrefixOf l ∧ pat ≠ [] then rep ++ replaceAllAux pat rep fuel (l.drop pat.length)
    else
      match l with
      | [] => []
      | c :: cs => c :: replaceAllAux pat rep fuel cs

/-- Python `s.replace(pat, rep)` on `String`s (patterns in the script are
non-empty). -/
def pyReplace (s pat rep : String) : String :=
  String.mk (replaceAllAux pat.data rep.data s.data.length s.data)

/-- Python `s.rsplit(sep, 1)[0]` for a one-character separator: the text
before the last separator, or the whole text when the separator does not
occur. -/
def dropLastSegment (sep : Char) (s : String) : String :=
  match s.data.reverse.dropWhile (fun c => c != sep) with
  | [] => s
  | _ :: before => String.mk before.reverse

/-- A linked issue synthesized from a keyword match. -/
structure LinkedIssue where
  title : String
  body : String
  url : String
deriving DecidableEq, Repr

/-- The single-quote character used in the provenance note. -/
def sq : Char := Char.ofNat 39

/-- A string wrapped in single quotes, as the f-string
f-string of the provenance note renders the keyword. -/
def quoteSq (s : String) : String :=
  String.mk (sq :: s.data ++ [sq])

/-- The issue-tracker base URL derived from the PR URL
(generate_payload.py lines 91-92):
`pr_url.replace("/pull-requests/", "/issues/").replace("/pull/", "/issues/")`
then the text before the last slash, as rsplit with count 1 keeps it. -/
def base_issue_url (pr_url : String) : String :=
  dropLastSegment '/' (pyReplace (pyReplace pr_url "/pull-requests/" "/issues/") "/pull/" "/issues/")

/-- The `LinkedIssue` built for one kept match
(generate_payload.py lines 101-105). -/
def mkIssue (base : String) (kw idStr : String) : LinkedIssue :=
  { title := "Issue #" ++ idStr
    body := "Linked via keyword " ++ quoteSq kw
    url := base ++ "/" ++ idStr }

/-- The dedup loop of `extract_linked_issues`
(generate_payload.py lines 94-105): keep the first match for each issue
number, in order of first occurrence. -/
def dedupIssues (base : String) : List (List Char × List Char) → List String → List LinkedIssue
  | [], _ => []
  | (kw, ds) :: rest, seen =>
    let idStr := String.mk ds
    if idStr ∈ seen then dedupIssues base rest seen
    else mkIssue base (String.mk kw) idStr :: dedupIssues base rest (idStr :: seen)

/-- Model of `extract_linked_issues` (generate_payload.py lines 80-107): scan the
PR body for closure-keyword issue references and synthesize placeholder
issue records with URLs derived from the PR URL. -/
def extract_linked_issues (pr_body pr_url : String) : List LinkedIssue :=
  if pr_body = "" then []
  else dedupIssues (base_issue_url pr_url) (findAllMatches pr_body.data) []

/-- A JSON value as `json.loads` produces it (numbers restricted to
integers; the script only ever inspects objects, arrays and strings). -/
inductive JValue where
  | null
  | bool (b : Bool)
  | num (n : Int)
  | str (s : String)
  | arr (items : List JValue)
  | obj (fields : List (String × JValue))

/-- JSON insignificant whitespace. -/
def isJsonWs (c : Char) : Bool :=
  c = ' ' || c = '\t' || c = '\n' || c = '\r'

/-- Skip insignificant whitespace. -/
def skipWs (l : List Char) : List Char :=
  l.dropWhile isJsonWs

/-- One JSON string-escape character after a backslash. -/
def jsonEscape (c : Char) : Option Char :=
  if c = '"' then some '"'
  else if c = '\\' then some '\\'
  else if c = '/' then some '/'
  else if c = 'b' then some (Char.ofNat 8)
  else if c = 'f' then some (Char.ofNat 12)
  else if c = 'n' then some '\n'
  else if c = 'r' then some '\r'
  else if c = 't' then some '\t'
  else none

/-- The body of a JSON string after the opening quote (no `\u` escapes,
which the inputs of the script never use). -/
def parseStringBody : Nat → List Char → Option (List Char × List Char)
  | 0, _ => none
  | _, [] => none
  | fuel + 1, c :: cs =>
    if c = '"' then some ([], cs)
    else if c = '\\' then
      match cs with
      | [] => none
      | e :: cs2 =>
        match jsonEscape e with
        | none => none
        | some d =>
          match parseStringBody fuel cs2 with
          | none => none
          | some (body, rest) => some (d :: body, rest)
    else if c.toNat < 32 then none
    else
      match parseStringBody fuel cs with
      | none => none
      | some (body, rest) => some (c :: body, rest)

/-- JSON integer literal: optional minus, then `0` or a non-zero digit
followed by digits; a fraction or exponent makes the whole parse fail
(the inputs the script meets carry no floats). -/
def parseIntLit (l : List Char) : Option (Int × List Char) :=
  let (neg, l1) :=
    match l with
    | '-' :: rest => (true, rest)
    | _ => (false, l)
  match takeWhile1 Char.isDigit l1 with
  | none => none
  | some (ds, rest) =>
    if ds.length > 1 ∧ ds.headD '0' = '0' then none
    else
      match rest with
      | c :: _ =>
        if c = '.' ∨ c = 'e' ∨ c = 'E' then none
        else some (if neg then -(ofDigits ds) else ofDigits ds, rest)
      | [] => some (if neg then -(ofDigits ds) else ofDigits ds, rest)
where
  /-- Digits to the number they denote. -/
  ofDigits (ds : List Char) : Int :=
    ds.foldl (fun acc c => acc * 10 + (c.toNat - 48 : Nat)) 0

mutual

/-- Recursive-descent JSON value (after leading whitespace is skipped by
the caller). -/
def parseVal : Nat → List Char → Option (JValue × List Char)
  | 0, _ => none
  | fuel + 1, l =>
    match skipWs l with
    | [] => none
    | c :: cs =>
      if c = '"' then
        match parseStringBody (fuel + 1) cs with
        | none => none
        | some (body, rest) => some (.str (String.mk body), rest)
      else if c = '[' then
        parseArrItems fuel cs
      else if c = '\x7b' then
        parseObjItems fuel cs
      else if "true".data.isPrefixOf (c :: cs) then some (.bool true, (c :: cs).drop 4)
      else if "false".data.isPrefixOf (c :: cs) then some (.bool false, (c :: cs).drop 5)
      else if "null".data.isPrefixOf (c :: cs) then some (.null, (c :: cs).drop 4)
      else
        match parseIntLit (c :: cs) with
        | none => none
        | some (n, rest) => some (.num n, rest)

/-- Array items after the opening bracket. -/
def parseArrItems : Nat → List Char → Option (JValue × List Char)
  | 0, _ => none
  | fuel + 1, l =>
    match skipWs l with
    | ']' :: rest => some (.arr [], rest)
    | l1 =>
      match parseVal fuel l1 with
      | none => none
      | some (v, rest) => parseArrRest fuel [v] rest

/-- Array continuation: comma-separated values until `]`. -/
def parseArrRest : Nat → List JValue → List Char → Option (JValue × List Char)
  | 0, _, _ => none
  | fuel + 1, acc, l =>
    match skipWs l with
    | ']' :: rest => some (.arr acc.reverse, rest)
    | ',' :: rest =>
      match parseVal fuel rest with
      | none => none
      | some (v, rest2) => parseArrRest fuel (v :: acc) rest2
    | _ => none

/-- Object members after the opening brace. -/
def parseObjItems : Nat → List Char → Option (JValue × List Char)
  | 0, _ => none
  | fuel + 1, l =>
    match skipWs l with
    | '\x7d' :: rest => some (.obj [], rest)
    | l1 => parseObjMember fuel [] l1

/-- One `"key": value` member followed by the object continuation. -/
def parseObjMember : Nat → List (String × JValue) → List Char → Option (JValue × List Char)
  | 0, _, _ => none
  | fuel + 1, acc, l =>
    match skipWs l with
    | '"' :: cs =>
      match parseStringBody fuel cs with
      | none => none
      | some (key, rest) =>
        match skipWs rest with
        | ':' :: rest2 =>
          match parseVal fuel rest2 with
          | none => none
          | some (v, rest3) =>
            match skipWs rest3 with
            | '\x7d' :: rest4 => some (.obj ((String.mk key, v) :: acc).reverse, rest4)
            | ',' :: rest4 => parseObjMember fuel ((String.mk key, v) :: acc) rest4
            | _ => none
        | _ => none
    | _ => none

end

/-- Model of `json.loads`: parse a complete JSON document, requiring the whole
input (up to whitespace) to be consumed; `none` models the raised
`JSONDecodeError`. -/
def json_loads (s : String) : Option JValue :=
  match parseVal (s.data.length + 1) s.data with
  | none => none
  | some (v, rest) => if skipWs rest = [] then some v else none

/-- Python truthiness of a JSON value. -/
def truthy : JValue → Bool
  | .null => false
  | .bool b => b
  | .num n => n != 0
  | .str s => s != ""
  | .arr items => !items.isEmpty
  | .obj fields => !fields.isEmpty

/-- Python `dict.get(k)` with default `None`; `json.loads` keeps the last of
duplicate keys, so the lookup is over the reversed member list. -/
def dictGet (fields : List (String × JValue)) (k : String) : JValue :=
  (fields.reverse.lookup k).getD .null

/-- Selection of the reviewer identifier, `r.get(login) or r.get(nickname)` (generate_payload.py line 359):
the login when truthy, else the nickname. -/
def pickReviewer (fields : List (String × JValue)) : JValue :=
  let a := dictGet fields "login"
  if truthy a then a else dictGet fields "nickname"

/-- The object members of a JSON value, when it is an object; iterating a
non-object element in the reviewer comprehension raises. -/
def asObjFields : JValue → Option (List (String × JValue))
  | .obj f => some f
  | _ => none

/-- The element dicts of the iterated array; `none` models the
`AttributeError` the comprehension raises at its first non-dict element
(which discards the whole reviewer list). -/
def allObjFields : List JValue → Option (List (List (String × JValue)))
  | [] => some []
  | v :: vs =>
    match asObjFields v with
    | none => none
    | some f =>
      match allObjFields vs with
      | none => none
      | some fs => some (f :: fs)

/-- The reviewer comprehension over a parsed `REVIEWERS_JSON` value
(generate_payload.py line 359): for a JSON array of objects, the truthy
`login`-or-`nickname` of each entry, in order; any other shape raises
inside the `try` and the handler yields the empty list. -/
def reviewersFrom (v : JValue) : List JValue :=
  match v with
  | .arr items =>
    match allObjFields items with
    | none => []
    | some objs => (objs.map pickReviewer).filter truthy
  | _ => []

/-- The reviewer-parsing block of `main`
(generate_payload.py lines 356-361): parse `REVIEWERS_JSON` (default
`"[]"`) and extract identifiers; every exception is caught and yields the
empty list. -/
def parse_reviewers (reviewers_json : String) : List JValue :=
  match json_loads reviewers_json with
  | none => []
  | some v => reviewersFrom v

/-- An `old`/`new` path record of a Bitbucket diffstat entry. -/
structure PathRec where
  path : String
deriving DecidableEq, Repr

/-- One Bitbucket diffstat entry: its `old` and `new` path records
(`none` models an absent or null record). -/
structure DiffstatItem where
  old : Option PathRec
  new : Option PathRec
deriving DecidableEq, Repr

/-- An HTTP response as the per-file diff request observes it. -/
structure HttpResp where
  status : Nat
  body : String
deriving DecidableEq, Repr

/-- One iteration of the Bitbucket diffstat loop
(generate_payload.py lines 211-241): derive filename and status from the
`old`/`new` records, fetch the per-file diff (empty patch unless the
response status is 200), and build the `FileChange`; `none` models the
`continue` on an entry with neither record. -/
def bitbucketFileOf (diffReq : String → HttpResp) (item : DiffstatItem) : Option FileChange :=
  match item.new with
  | some n =>
    let filename := n.path
    let status :=
      match item.old with
      | none => "added"
      | some o => if o.path != filename then "renamed" else "modified"
    let resp := diffReq filename
    let patch := if resp.status = 200 then resp.body else ""
    some { filename := filename, status := status, patch := patch }
  | none =>
    match item.old with
    | some o =>
      let filename := o.path
      let resp := diffReq filename
      let patch := if resp.status = 200 then resp.body else ""
      some { filename := filename, status := "deleted", patch := patch }
    | none => none

/-- The whole Bitbucket file loop over the diffstat values
(generate_payload.py lines 210-241). -/
def bitbucket_files (diffReq : String → HttpResp) (items : List DiffstatItem) : List FileChange :=
  items.filterMap (bitbucketFileOf diffReq)

/-- The patch text a Bitbucket per-file diff request yields
(generate_payload.py lines 227-235): the response body on status 200,
else the empty string. -/
def bbPatch (diffReq : String → HttpResp) (fn : String) : String :=
  if (diffReq fn).status = 200 then (diffReq fn).body else ""

/-- The per-directory file listing of `get_repository_structure`
(generate_payload.py lines 45-50): list files until the index exceeds 10,
then emit the `... (+{len(files)-10} files)` marker and stop. -/
def renderFilesAux (subindent : String) (total : Nat) : Nat → List String → List String
  | _, [] => []
  | i, f :: fs =>
    if i > 10 then [subindent ++ "... (+" ++ toString (total - 10) ++ " files)"]
    else (subindent ++ f) :: renderFilesAux subindent total (i + 1) fs

/-- The file listing one walked directory contributes to the tree
summary. -/
def renderDirFiles (subindent : String) (files : List String) : List String :=
  renderFilesAux subindent files.length 0 files

/-- A directory tree as `os.walk` observes it: name, subdirectories,
files (in listing order). -/
inductive FsTree where
  | dir (name : String) (subdirs : List FsTree) (files : List String)

/-- The name of the directory at the root of a tree. -/
def FsTree.name : FsTree → String
  | .dir n _ _ => n

/-- The directories `get_repository_structure` prunes from the walk
(generate_payload.py line 31). -/
def exclude_dirs : List String :=
  [".git", "__pycache__", "node_modules", "dist", "build", "venv", ".venv"]

/-- The indentation for a nesting level: two spaces per level. -/
def indentOf (level : Nat) : String :=
  String.mk (List.replicate (2 * level) ' ')

mutual

/-- The lines `get_repository_structure` emits for one walked directory
(generate_payload.py lines 33-50): prune excluded subdirectories, skip
emission at depth `max_depth` and beyond, and recurse top-down. -/
def walkTree (max_depth level : Nat) : FsTree → List String
  | .dir name subdirs files =>
    let here :=
      if level ≥ max_depth then []
      else (indentOf level ++ name ++ "/") :: renderDirFiles (indentOf (level + 1)) files
    here ++ walkForest max_depth (level + 1) subdirs

/-- The walk over a list of sibling directories, in order; a pruned
directory (the in-place `dirs[:]` filter of the parent) is not walked at
all. -/
def walkForest (max_depth level : Nat) : List FsTree → List String
  | [] => []
  | t :: ts =>
    (if exclude_dirs.contains t.name then [] else walkTree max_depth level t)
      ++ walkForest max_depth level ts

end

/-- Model of `get_repository_structure` (generate_payload.py lines 27-52) over an
explicit directory tree. -/
def get_repository_structure (tree : FsTree) : String :=
  String.intercalate "\n" (walkTree 2 0 tree)

/-- The dependency-manifest filenames `get_dependencies_content` looks
for (generate_payload.py lines 57-65), in order. -/
def interesting_files : List String :=
  ["package.json", "requirements.txt", "pyproject.toml", "go.mod",
   "Cargo.toml", "composer.json", "Gemfile"]

/-- Model of `get_dependencies_content` (generate_payload.py lines 55-77) over an
explicit read function (`none` = missing or unreadable file): labeled
2000-character excerpts of the manifests that exist, or `none` when there
are none. -/
def get_dependencies_content (readFile : String → Option String) : Option String :=
  let blocks := interesting_files.filterMap (fun fn =>
    match readFile fn with
    | none => none
    | some content => some ("--- " ++ fn ++ " ---\n" ++ content.take 2000))
  if blocks.isEmpty then none
  else some (String.intercalate "\n\n" blocks)

/-- The root payload object (generate_payload.py lines 364-380). -/
structure Payload where
  pr_title : Option String
  pr_number : Option String
  commit_sha : Option String
  pr_description : String
  branch_name : Option String
  pr_url : String
  creator : Option String
  output_lang : String
  reviewers : List JValue
  files : List FileChange
  commit_messages : List String
  linked_issues : List LinkedIssue
  repository_structure : String
  dependencies : Option String
  custom_instructions : Option String

/-- Everything the script observes: the environment, the outcome each
platform fetcher would produce if called, the git world, the working
directory tree and the readable files. -/
structure World where
  env : Env
  githubData : Option PrData
  bitbucketData : Option PrData
  git : GitWorld
  cwd : FsTree
  readFile : String → Option String

/-- How a run of `main` ends: `sys.exit` with a non-zero code, an
uncaught exception, or a payload written to the output path. -/
inductive MainOutcome where
  | fatal (code : Nat)
  | exn
  | wrote (path : String) (payload : Payload)

/-- Model of `main` (generate_payload.py lines 318-390): detect the platform, try
the platform fetch, fall back to git, exit 1 when no file data was
obtained, otherwise assemble the payload and write it to
`PAYLOAD_OUTPUT_PATH` (default `payload.json`). -/
def main (w : World) : MainOutcome :=
  let pr_data0 : Option PrData :=
    match detect_platform w.env with
    | some .github => w.githubData
    | some .bitbucket => w.bitbucketData
    | none => none
  let fetched : PyResult (Option PrData) :=
    match pr_data0 with
    | none => fetch_pr_data_via_git w.env w.git
    | some d => .ok (some d)
  match fetched with
  | .exn => .exn
  | .ok none => .fatal 1
  | .ok (some d) =>
    if d.files.isEmpty then .fatal 1
    else
      let pr_body := (w.env "PR_BODY").getD ""
      let pr_url := (w.env "PR_URL").getD ""
      let payload : Payload :=
        { pr_title := w.env "PR_TITLE"
          pr_number := w.env "PR_NUMBER"
          commit_sha := w.env "COMMIT_SHA"
          pr_description := pr_body
          branch_name := w.env "BRANCH_NAME"
          pr_url := pr_url
          creator := w.env "CREATOR"
          output_lang := (w.env "OUTPUT_LANG").getD "vi"
          reviewers := parse_reviewers ((w.env "REVIEWERS_JSON").getD "[]")
          files := d.files
          commit_messages := d.commit_messages
          linked_issues := extract_linked_issues pr_body pr_url
          repository_structure := get_repository_structure w.cwd
          dependencies := get_dependencies_content w.readFile
          custom_instructions := w.env "CUSTOM_INSTRUCTIONS" }
      .wrote ((w.env "PAYLOAD_OUTPUT_PATH").getD "payload.json") payload

/-- Two character lists that agree up to ASCII case. -/
def LcEq (l₁ l₂ : List Char) : Prop :=
  l₁.map lc = l₂.map lc

/-- Lift a relation to `Option`: both absent, or both present and
related. -/
def OptRel (R : α → β → Prop) : Option α → Option β → Prop
  | none, none => True
  | some a, some b => R a b
  | _, _ => False

/-! Theorems.  First the character-level facts about the ASCII case
folding `lc`, then the congruence of the regex scan under case changes,
then the claim theorems. -/

theorem lc_congr (f : Char → Bool) (c : Char)
    (h : ∀ p ∈ lcTable, f p.2 = f p.1) : f (lc c) = f c := by
  unfold lc
  cases hf : lcTable.find? (fun p => p.1 = c) with
  | none => rfl
  | some p =>
    have hm : p ∈ lcTable := List.mem_of_find?_eq_some hf
    have he : p.1 = c := by simpa using List.find?_some hf
    simpa [he] using h p hm

theorem lc_isWhitespace (c : Char) : (lc c).isWhitespace = c.isWhitespace :=
  lc_congr Char.isWhitespace c (by decide)

theorem lc_isDigit (c : Char) : (lc c).isDigit = c.isDigit :=
  lc_congr Char.isDigit c (by decide)

theorem lc_eq_self (c : Char) (h : ∀ p ∈ lcTable, p.1 ≠ c) : lc c = c := by
  unfold lc
  cases hf : lcTable.find? (fun p => p.1 = c) with
  | none => rfl
  | some p =>
    have hm : p ∈ lcTable := List.mem_of_find?_eq_some hf
    have he : p.1 = c := by simpa using List.find?_some hf
    exact absurd he (h p hm)

theorem lc_fix_of_isDigit (c : Char) (h : c.isDigit = true) : lc c = c := by
  have hd : ∀ p ∈ lcTable, p.1.isDigit = false := by decide
  refine lc_eq_self c (fun p hp he => ?_)
  have := hd p hp
  rw [he, h] at this
  simp at this

theorem lc_eq_hash (c : Char) : (lc c = '#') ↔ (c = '#') := by
  have h2 : ∀ p ∈ lcTable, p.2 ≠ '#' := by decide
  constructor
  · intro h
    by_contra hne
    unfold lc at h
    cases hf : lcTable.find? (fun p => p.1 = c) with
    | none => rw [hf] at h; exact hne h
    | some p =>
      rw [hf] at h
      exact h2 p (List.mem_of_find?_eq_some hf) h
  · intro h; subst h; decide

theorem LcEq_nil_left {l : List Char} (h : LcEq [] l) : l = [] := by
  unfold LcEq at h
  exact List.map_eq_nil_iff.mp h.symm

theorem LcEq_nil_right {l : List Char} (h : LcEq l []) : l = [] := by
  unfold LcEq at h
  exact List.map_eq_nil_iff.mp h

theorem LcEq_cons {c₁ c₂ : Char} {l₁ l₂ : List Char} (h : LcEq (c₁ :: l₁) (c₂ :: l₂)) :
    lc c₁ = lc c₂ ∧ LcEq l₁ l₂ := by
  unfold LcEq at h ⊢
  simpa using h

theorem matchKw_ci (k : List Char) :
    ∀ l₁ l₂, LcEq l₁ l₂ →
      (matchKw k l₁ = none ∧ matchKw k l₂ = none) ∨
      (∃ a₁ r₁ a₂ r₂, matchKw k l₁ = some (a₁, r₁) ∧ matchKw k l₂ = some (a₂, r₂) ∧
        LcEq r₁ r₂) := by
  induction k with
  | nil =>
    intro l₁ l₂ h
    exact Or.inr ⟨[], l₁, [], l₂, rfl, rfl, h⟩
  | cons kc ks ih =>
    intro l₁ l₂ h
    cases l₁ with
    | nil =>
      have := LcEq_nil_left h
      subst this
      exact Or.inl ⟨rfl, rfl⟩
    | cons c₁ cs₁ =>
      cases l₂ with
      | nil => exact absurd (LcEq_nil_right h) (by simp)
      | cons c₂ cs₂ =>
        obtain ⟨hc, hcs⟩ := LcEq_cons h
        by_cases hk : lc c₁ = kc
        · have hk₂ : lc c₂ = kc := hc ▸ hk
          rcases ih cs₁ cs₂ hcs with ⟨h1, h2⟩ | ⟨a₁, r₁, a₂, r₂, h1, h2, hr⟩
          · left
            constructor <;> simp [matchKw, hk, hk₂, h1, h2]
          · right
            exact ⟨c₁ :: a₁, r₁, c₂ :: a₂, r₂, by simp [matchKw, hk, h1],
              by simp [matchKw, hk₂, h2], hr⟩
        · have hk₂ : ¬ lc c₂ = kc := fun hh => hk (hc ▸ hh)
          left
          constructor <;> simp [matchKw, hk, hk₂]



theorem takeWhileCh_ci (p : Char → Bool) (hp : ∀ c, p (lc c) = p c) :
    ∀ l₁ l₂, LcEq l₁ l₂ →
      LcEq (takeWhileCh p l₁).1 (takeWhileCh p l₂).1 ∧
      LcEq (takeWhileCh p l₁).2 (takeWhileCh p l₂).2 := by
  intro l₁
  induction l₁ with
  | nil =>
    intro l₂ h
    have := LcEq_nil_left h
    subst this
    exact ⟨h, h⟩
  | cons c₁ cs₁ ih =>
    intro l₂ h
    cases l₂ with
    | nil => exact absurd (LcEq_nil_right h) (by simp)
    | cons c₂ cs₂ =>
      obtain ⟨hc, hcs⟩ := LcEq_cons h
      have hpc : p c₁ = p c₂ := by rw [← hp c₁, ← hp c₂, hc]
      by_cases hb : p c₁ = true
      · have hb₂ : p c₂ = true := hpc ▸ hb
        obtain ⟨ih1, ih2⟩ := ih cs₂ hcs
        constructor
        · simpa [takeWhileCh, hb, hb₂, LcEq, hc] using ih1
        · simpa [takeWhileCh, hb, hb₂] using ih2
      · have hb₂ : ¬ p c₂ = true := fun hh => hb (hpc ▸ hh)
        constructor
        · simp [takeWhileCh, hb, hb₂, LcEq]
        · simpa [takeWhileCh, hb, hb₂] using h

theorem takeWhileCh_digit_fst_eq :
    ∀ l₁ l₂, LcEq l₁ l₂ →
      (takeWhileCh Char.isDigit l₁).1 = (takeWhileCh Char.isDigit l₂).1 := by
  intro l₁
  induction l₁ with
  | nil =>
    intro l₂ h
    have := LcEq_nil_left h
    subst this
    rfl
  | cons c₁ cs₁ ih =>
    intro l₂ h
    cases l₂ with
    | nil => exact absurd (LcEq_nil_right h) (by simp)
    | cons c₂ cs₂ =>
      obtain ⟨hc, hcs⟩ := LcEq_cons h
      have hpc : c₁.isDigit = c₂.isDigit := by
        rw [← lc_isDigit c₁, ← lc_isDigit c₂, hc]
      by_cases hb : c₁.isDigit = true
      · have hb₂ : c₂.isDigit = true := hpc ▸ hb
        have hceq : c₁ = c₂ := by
          have e1 := lc_fix_of_isDigit c₁ hb
          have e2 := lc_fix_of_isDigit c₂ hb₂
          rw [← e1, ← e2, hc]
        simpa [takeWhileCh, hb, hb₂, hceq] using ih cs₂ hcs
      · have hb₂ : ¬ c₂.isDigit = true := fun hh => hb (hpc ▸ hh)
        simp [takeWhileCh, hb, hb₂]

theorem takeWhile1_ws_ci :
    ∀ l₁ l₂, LcEq l₁ l₂ →
      (takeWhile1 Char.isWhitespace l₁ = none ∧ takeWhile1 Char.isWhitespace l₂ = none) ∨
      (∃ a₁ r₁ a₂ r₂, takeWhile1 Char.isWhitespace l₁ = some (a₁, r₁) ∧
        takeWhile1 Char.isWhitespace l₂ = some (a₂, r₂) ∧ LcEq r₁ r₂) := by
  intro l₁ l₂ h
  cases l₁ with
  | nil =>
    have := LcEq_nil_left h
    subst this
    exact Or.inl ⟨rfl, rfl⟩
  | cons c₁ cs₁ =>
    cases l₂ with
    | nil => exact absurd (LcEq_nil_right h) (by simp)
    | cons c₂ cs₂ =>
      obtain ⟨hc, hcs⟩ := LcEq_cons h
      have hpc : c₁.isWhitespace = c₂.isWhitespace := by
        rw [← lc_isWhitespace c₁, ← lc_isWhitespace c₂, hc]
      by_cases hb : c₁.isWhitespace = true
      · have hb₂ : c₂.isWhitespace = true := hpc ▸ hb
        obtain ⟨-, h2⟩ := takeWhileCh_ci Char.isWhitespace lc_isWhitespace cs₁ cs₂ hcs
        right
        exact ⟨c₁ :: (takeWhileCh Char.isWhitespace cs₁).1, (takeWhileCh Char.isWhitespace cs₁).2,
          c₂ :: (takeWhileCh Char.isWhitespace cs₂).1, (takeWhileCh Char.isWhitespace cs₂).2,
          by simp [takeWhile1, hb], by simp [takeWhile1, hb₂], h2⟩
      · have hb₂ : ¬ c₂.isWhitespace = true := fun hh => hb (hpc ▸ hh)
        exact Or.inl ⟨by simp [takeWhile1, hb], by simp [takeWhile1, hb₂]⟩

theorem takeWhile1_digit_ci :
    ∀ l₁ l₂, LcEq l₁ l₂ →
      (takeWhile1 Char.isDigit l₁ = none ∧ takeWhile1 Char.isDigit l₂ = none) ∨
      (∃ a r₁ r₂, takeWhile1 Char.isDigit l₁ = some (a, r₁) ∧
        takeWhile1 Char.isDigit l₂ = some (a, r₂) ∧ LcEq r₁ r₂) := by
  intro l₁ l₂ h
  cases l₁ with
  | nil =>
    have := LcEq_nil_left h
    subst this
    exact Or.inl ⟨rfl, rfl⟩
  | cons c₁ cs₁ =>
    cases l₂ with
    | nil => exact absurd (LcEq_nil_right h) (by simp)
    | cons c₂ cs₂ =>
      obtain ⟨hc, hcs⟩ := LcEq_cons h
      have hpc : c₁.isDigit = c₂.isDigit := by
        rw [← lc_isDigit c₁, ← lc_isDigit c₂, hc]
      by_cases hb : c₁.isDigit = true
      · have hb₂ : c₂.isDigit = true := hpc ▸ hb
        have hceq : c₁ = c₂ := by
          have e1 := lc_fix_of_isDigit c₁ hb
          have e2 := lc_fix_of_isDigit c₂ hb₂
          rw [← e1, ← e2, hc]
        have hfst := takeWhileCh_digit_fst_eq cs₁ cs₂ hcs
        obtain ⟨-, h2⟩ := takeWhileCh_ci Char.isDigit lc_isDigit cs₁ cs₂ hcs
        right
        refine ⟨c₁ :: (takeWhileCh Char.isDigit cs₁).1, (takeWhileCh Char.isDigit cs₁).2,
          (takeWhileCh Char.isDigit cs₂).2, by simp [takeWhile1, hb], ?_, h2⟩
        rw [hceq, hfst]
        simp [takeWhile1, hb₂]
      · have hb₂ : ¬ c₂.isDigit = true := fun hh => hb (hpc ▸ hh)
        exact Or.inl ⟨by simp [takeWhile1, hb], by simp [takeWhile1, hb₂]⟩



theorem matchKwPattern_ci (kw : List Char) :
    ∀ l₁ l₂, LcEq l₁ l₂ →
      (matchKwPattern kw l₁ = none ∧ matchKwPattern kw l₂ = none) ∨
      (∃ a₁ ds r₁ a₂ r₂, matchKwPattern kw l₁ = some (a₁, ds, r₁) ∧
        matchKwPattern kw l₂ = some (a₂, ds, r₂) ∧ LcEq r₁ r₂) := by
  intro l₁ l₂ h
  rcases matchKw_ci kw l₁ l₂ h with ⟨h1, h2⟩ | ⟨a₁, r₁, a₂, r₂, h1, h2, hr⟩
  · exact Or.inl ⟨by simp [matchKwPattern, h1], by simp [matchKwPattern, h2]⟩
  · rcases takeWhile1_ws_ci r₁ r₂ hr with ⟨w1, w2⟩ | ⟨b₁, s₁, b₂, s₂, w1, w2, hs⟩
    · exact Or.inl ⟨by simp [matchKwPattern, h1, w1], by simp [matchKwPattern, h2, w2]⟩
    · cases s₁ with
      | nil =>
        have := LcEq_nil_left hs
        subst this
        exact Or.inl ⟨by simp [matchKwPattern, h1, w1], by simp [matchKwPattern, h2, w2]⟩
      | cons d₁ t₁ =>
        cases s₂ with
        | nil => exact absurd (LcEq_nil_right hs) (by simp)
        | cons d₂ t₂ =>
          obtain ⟨hd, ht⟩ := LcEq_cons hs
          by_cases hh : d₁ = '#'
          · have hh₂ : d₂ = '#' := by
              have : lc d₂ = '#' := by rw [← hd]; exact (lc_eq_hash d₁).mpr hh
              exact (lc_eq_hash d₂).mp this
            subst hh hh₂
            rcases takeWhile1_digit_ci t₁ t₂ ht with ⟨g1, g2⟩ | ⟨ds, u₁, u₂, g1, g2, hu⟩
            · exact Or.inl ⟨by simp [matchKwPattern, h1, w1, g1],
                by simp [matchKwPattern, h2, w2, g2]⟩
            · right
              exact ⟨a₁, ds, u₁, a₂, u₂, by simp [matchKwPattern, h1, w1, g1],
                by simp [matchKwPattern, h2, w2, g2], hu⟩
          · have hh₂ : d₂ ≠ '#' := by
              intro he
              exact hh ((lc_eq_hash d₁).mp (by rw [hd]; exact (lc_eq_hash d₂).mpr he))
            left
            constructor
            · simp only [matchKwPattern, h1, w1]
              cases hdc : d₁
              simp_all [matchKwPattern]
            · simp only [matchKwPattern, h2, w2]
              cases hdc : d₂
              simp_all [matchKwPattern]



theorem findSomeKw_ci (ks : List (List Char)) :
    ∀ l₁ l₂, LcEq l₁ l₂ →
      (ks.findSome? (fun k => matchKwPattern k l₁) = none ∧
       ks.findSome? (fun k => matchKwPattern k l₂) = none) ∨
      (∃ a₁ ds r₁ a₂ r₂, ks.findSome? (fun k => matchKwPattern k l₁) = some (a₁, ds, r₁) ∧
        ks.findSome? (fun k => matchKwPattern k l₂) = some (a₂, ds, r₂) ∧ LcEq r₁ r₂) := by
  induction ks with
  | nil => intro l₁ l₂ h; exact Or.inl ⟨rfl, rfl⟩
  | cons k ks ih =>
    intro l₁ l₂ h
    rcases matchKwPattern_ci k l₁ l₂ h with ⟨h1, h2⟩ | ⟨a₁, ds, r₁, a₂, r₂, h1, h2, hr⟩
    · rcases ih l₁ l₂ h with ⟨g1, g2⟩ | ⟨a₁, ds, r₁, a₂, r₂, g1, g2, hr⟩
      · exact Or.inl ⟨by simp [List.findSome?, h1, g1], by simp [List.findSome?, h2, g2]⟩
      · exact Or.inr ⟨a₁, ds, r₁, a₂, r₂, by simp [List.findSome?, h1, g1],
          by simp [List.findSome?, h2, g2], hr⟩
    · exact Or.inr ⟨a₁, ds, r₁, a₂, r₂, by simp [List.findSome?, h1],
        by simp [List.findSome?, h2], hr⟩

theorem matchAnyKw_ci (l₁ l₂ : List Char) (h : LcEq l₁ l₂) :
    (matchAnyKw l₁ = none ∧ matchAnyKw l₂ = none) ∨
    (∃ a₁ ds r₁ a₂ r₂, matchAnyKw l₁ = some (a₁, ds, r₁) ∧
      matchAnyKw l₂ = some (a₂, ds, r₂) ∧ LcEq r₁ r₂) :=
  findSomeKw_ci closureKeywords l₁ l₂ h

theorem findAllAux_ci :
    ∀ fuel l₁ l₂, LcEq l₁ l₂ →
      (findAllAux fuel l₁).map (fun p => p.2) = (findAllAux fuel l₂).map (fun p => p.2) := by
  intro fuel
  induction fuel with
  | zero => intro l₁ l₂ _; simp [findAllAux]
  | succ fuel ih =>
    intro l₁ l₂ h
    cases l₁ with
    | nil =>
      have := LcEq_nil_left h
      subst this
      rfl
    | cons c₁ cs₁ =>
      cases l₂ with
      | nil => exact absurd (LcEq_nil_right h) (by simp)
      | cons c₂ cs₂ =>
        obtain ⟨-, hcs⟩ := LcEq_cons h
        rcases matchAnyKw_ci (c₁ :: cs₁) (c₂ :: cs₂) h with
          ⟨h1, h2⟩ | ⟨a₁, ds, r₁, a₂, r₂, h1, h2, hr⟩
        · simpa [findAllAux, h1, h2] using ih cs₁ cs₂ hcs
        · simpa [findAllAux, h1, h2] using ih r₁ r₂ hr

theorem findAllMatches_ci (l₁ l₂ : List Char) (h : LcEq l₁ l₂) :
    (findAllMatches l₁).map (fun p => p.2) = (findAllMatches l₂).map (fun p => p.2) := by
  have hlen : l₁.length = l₂.length := by
    have := congrArg List.length h
    simpa using this
  unfold findAllMatches
  rw [hlen]
  exact findAllAux_ci l₂.length l₁ l₂ h

theorem dedupIssues_ci (base : String) :
    ∀ ms₁ ms₂ seen, ms₁.map (fun p => p.2) = ms₂.map (fun p => p.2) →
      (dedupIssues base ms₁ seen).map (fun i => (i.title, i.url)) =
      (dedupIssues base ms₂ seen).map (fun i => (i.title, i.url)) := by
  intro ms₁
  induction ms₁ with
  | nil =>
    intro ms₂ seen h
    have : ms₂ = [] := by simpa using (List.map_eq_nil_iff.mp h.symm)
    subst this
    rfl
  | cons m ms ih =>
    intro ms₂ seen h
    cases ms₂ with
    | nil => simp at h
    | cons m₂ ms₂' =>
      obtain ⟨kw₁, ds₁⟩ := m
      obtain ⟨kw₂, ds₂⟩ := m₂
      simp only [List.map_cons, List.cons.injEq] at h
      obtain ⟨hds, hrest⟩ := h
      subst hds
      by_cases hm : String.mk ds₁ ∈ seen
      · simpa [dedupIssues, hm] using ih ms₂' seen hrest
      · simpa [dedupIssues, hm, mkIssue] using ih ms₂' (String.mk ds₁ :: seen) hrest



theorem string_eq_empty_of_data_nil {s : String} (h : s.data = []) : s = "" := by
  cases s
  simp_all

theorem extract_ci (b₁ b₂ u : String) (h : LcEq b₁.data b₂.data) :
    (extract_linked_issues b₁ u).map (fun i => (i.title, i.url)) =
    (extract_linked_issues b₂ u).map (fun i => (i.title, i.url)) := by
  by_cases h1 : b₁ = ""
  · subst h1
    have : b₂.data = [] := LcEq_nil_left h
    have h2 : b₂ = "" := string_eq_empty_of_data_nil this
    subst h2
    rfl
  · have h2 : b₂ ≠ "" := by
      intro he
      subst he
      exact h1 (string_eq_empty_of_data_nil (LcEq_nil_right h))
    unfold extract_linked_issues
    simp only [h1, h2, if_false]
    exact dedupIssues_ci (base_issue_url u) _ _ [] (findAllMatches_ci b₁.data b₂.data h)

theorem append_right_inj_str {s a b : String} (h : s ++ a = s ++ b) : a = b := by
  have := congrArg String.data h
  simp only [String.data_append] at this
  have := List.append_cancel_left this
  cases a; cases b; simp_all

theorem dedupIssues_shape (base : String) :
    ∀ ms seen i, i ∈ dedupIssues base ms seen →
      ∃ kw idStr, i = mkIssue base kw idStr ∧ idStr ∉ seen := by
  intro ms
  induction ms with
  | nil => intro seen i hi; simp [dedupIssues] at hi
  | cons m rest ih =>
    intro seen i hi
    obtain ⟨kw, ds⟩ := m
    by_cases hm : String.mk ds ∈ seen
    · simp only [dedupIssues, if_pos hm] at hi
      exact ih seen i hi
    · simp only [dedupIssues, if_neg hm] at hi
      rcases List.mem_cons.mp hi with hi1 | hi1
      · exact ⟨String.mk kw, String.mk ds, hi1, hm⟩
      · obtain ⟨kw2, id2, he, hs⟩ := ih _ i hi1
        refine ⟨kw2, id2, he, ?_⟩
        intro hin
        exact hs (List.mem_cons_of_mem _ hin)

theorem dedupIssues_titles_nodup (base : String) :
    ∀ ms seen, ((dedupIssues base ms seen).map LinkedIssue.title).Nodup := by
  intro ms
  induction ms with
  | nil => intro seen; simp [dedupIssues]
  | cons m rest ih =>
    intro seen
    obtain ⟨kw, ds⟩ := m
    by_cases hm : String.mk ds ∈ seen
    · simp only [dedupIssues, if_pos hm]
      exact ih seen
    · simp only [dedupIssues, if_neg hm, List.map_cons, List.nodup_cons]
      refine ⟨?_, ih _⟩
      intro hmem
      obtain ⟨j, hj, ht⟩ := List.mem_map.mp hmem
      obtain ⟨kw2, id2, he, hs⟩ := dedupIssues_shape base rest (String.mk ds :: seen) j hj
      have hne : id2 ≠ String.mk ds := fun hh => hs (hh ▸ List.mem_cons_self _ _)
      apply hne
      have htt : ("Issue #" ++ id2 : String) = "Issue #" ++ String.mk ds := by
        rw [he] at ht
        simpa [mkIssue] using ht
      exact append_right_inj_str htt

/-- C7: whenever the external command fails, `run_command` reports the
error (including the captured standard error) on the diagnostic stream
and returns the empty string; being a total function of the command
result, it propagates no fault to its caller. -/
theorem run_command_failure_spec (command : List String) (code : Nat) (stderr : String) :
    (run_command command (.err code stderr)).fst = "" ∧
    (run_command command (.err code stderr)).snd = [runErrorLine command stderr] :=
  ⟨rfl, rfl⟩

/-- C2: the git name-status mapping sends `A` to `added`, `M` to
`modified`, `D` to `deleted`, `R` to `renamed`, and every other code to
`modified`; it is a total function, and every file the fallback fetcher
builds from a diff line carries a status in the canonical vocabulary. -/
theorem git_status_map_spec :
    git_status_map 'A' = "added" ∧ git_status_map 'M' = "modified" ∧
    git_status_map 'D' = "deleted" ∧ git_status_map 'R' = "renamed" ∧
    (∀ c : Char, c ∉ (['A', 'M', 'D', 'R'] : List Char) → git_status_map c = "modified") ∧
    (∀ w mb hd line f, lineToFile w mb hd line = some f →
      f.status ∈ (["added", "modified", "deleted", "renamed"] : List String)) := by
  refine ⟨rfl, rfl, rfl, rfl, ?_, ?_⟩
  · intro c hc
    simp only [List.mem_cons, List.not_mem_nil, or_false, not_or] at hc
    obtain ⟨h1, h2, h3, h4⟩ := hc
    simp [git_status_map, h1, h2, h3, h4]
  · intro w mb hd line f hf
    unfold lineToFile at hf
    cases hp : parseNameStatusLine line.data with
    | none => rw [hp] at hf; exact absurd hf (by simp)
    | some v =>
      rw [hp] at hf
      obtain ⟨c, fname⟩ := v
      simp only [Option.some.injEq] at hf
      have : f.status = git_status_map c := by rw [← hf]
      rw [this]
      unfold git_status_map
      split_ifs <;> simp

/-- Witness for C2 at the concrete code `X` and a concrete rename line. -/
theorem git_status_map_spec_wit :
    git_status_map 'X' = "modified" ∧
    (FileChange.mk "new" "renamed" "PATCH").status ∈
      (["added", "modified", "deleted", "renamed"] : List String) := by
  refine ⟨git_status_map_spec.2.2.2.2.1 'X' (by decide), ?_⟩
  exact git_status_map_spec.2.2.2.2.2 ⟨fun _ => .ok "PATCH"⟩ "mb" "hd" "R100\told\tnew"
    (FileChange.mk "new" "renamed" "PATCH") (by decide)

/-- C9: for a diff line whose first tab-separated field is non-empty, the
status code is the first character of that field and the filename is the
last tab-separated field; on the rename line `R100\told\tnew` the
fallback loop builds a `renamed` file change for `new`. -/
theorem name_status_line_fields :
    (∀ (l : List Char) (c : Char) (cs : List Char) (ps : List (List Char)),
      splitOnChar '\t' l = (c :: cs) :: ps →
      parseNameStatusLine l = some (c, ((c :: cs) :: ps).getLastD [])) ∧
    lineToFile ⟨fun _ => .ok "PATCH"⟩ "mb" "hd" "R100\told\tnew" =
      some (FileChange.mk "new" "renamed" "PATCH") := by
  constructor
  · intro l c cs ps h
    unfold parseNameStatusLine
    rw [h]
  · decide

/-- Witness for C9 at the concrete line `R100\told\tnew`. -/
theorem name_status_line_fields_wit :
    parseNameStatusLine ("R100\told\tnew".data) = some ('R', "new".data) :=
  (name_status_line_fields.1 ("R100\told\tnew".data) 'R' "100".data
    ["old".data, "new".data] (by decide)).trans (by decide)

/-- Characterization of the per-directory listing loop for any starting
index at most 11: it lists the next `11 - i` files and appends the
`+(total - 10)` marker exactly when more files remain. -/
theorem renderFilesAux_spec (subindent : String) (total : Nat) :
    ∀ (files : List String) (i : Nat), i ≤ 11 →
      renderFilesAux subindent total i files =
        (files.take (11 - i)).map (fun f => subindent ++ f) ++
        (if 11 - i < files.length
         then [subindent ++ "... (+" ++ toString (total - 10) ++ " files)"]
         else []) := by
  intro files
  induction files with
  | nil => intro i h; simp [renderFilesAux]
  | cons f fs ih =>
    intro i h
    by_cases hi : i > 10
    · have h11 : i = 11 := by omega
      subst h11
      simp [renderFilesAux]
    · have h1 : i + 1 ≤ 11 := by omega
      have hm : 11 - i = (11 - (i + 1)) + 1 := by omega
      rw [renderFilesAux, if_neg hi, ih (i + 1) h1, hm]
      simp only [List.take_succ_cons, List.map_cons, List.cons_append, List.length_cons]
      congr 2
      exact if_congr (by omega) rfl rfl

/-- C8 (amended): each walked directory lists at most its first 11 files;
when it holds 12 or more, a `... (+N files)` marker follows where `N` is
`len(files) - 10` - one more than the number of files left unlisted. -/
theorem renderDirFiles_truncation (subindent : String) (files : List String) :
    renderDirFiles subindent files =
      (files.take 11).map (fun f => subindent ++ f) ++
      (if 12 ≤ files.length
       then [subindent ++ "... (+" ++ toString (files.length - 10) ++ " files)"]
       else []) := by
  unfold renderDirFiles
  rw [renderFilesAux_spec subindent files.length files 0 (by omega)]
  congr 1

/-- C8 counterexample: a directory with 12 files lists 11 of them, so
exactly one file is unlisted, yet the emitted marker says `+2 files`,
not `+1 files`. -/
theorem renderDirFiles_marker_cex :
    renderDirFiles "" ["a1", "a2", "a3", "a4", "a5", "a6", "a7", "a8", "a9", "a10",
        "a11", "a12"] =
      ["a1", "a2", "a3", "a4", "a5", "a6", "a7", "a8", "a9", "a10", "a11",
       "... (+2 files)"] ∧
    (["a1", "a2", "a3", "a4", "a5", "a6", "a7", "a8", "a9", "a10", "a11", "a12"].length
      - 11 = 1) ∧
    ("... (+2 files)" : String) ≠ "... (+1 files)" := by
  refine ⟨by decide, rfl, by decide⟩

/-- C3: a diffstat entry with only a new path yields `added`, with both
paths differing `renamed`, with both equal `modified`, with only an old
path `deleted`; a non-200 per-file diff response yields an empty patch
for that file; and the emitted file list does not depend on the per-file
diff responses, so a per-file failure never aborts the fetch. -/
theorem bitbucket_status_and_patch (d : String → HttpResp) :
    (∀ n : PathRec, bitbucketFileOf d ⟨none, some n⟩ =
      some ⟨n.path, "added", bbPatch d n.path⟩) ∧
    (∀ o n : PathRec, o.path ≠ n.path → bitbucketFileOf d ⟨some o, some n⟩ =
      some ⟨n.path, "renamed", bbPatch d n.path⟩) ∧
    (∀ o n : PathRec, o.path = n.path → bitbucketFileOf d ⟨some o, some n⟩ =
      some ⟨n.path, "modified", bbPatch d n.path⟩) ∧
    (∀ o : PathRec, bitbucketFileOf d ⟨some o, none⟩ =
      some ⟨o.path, "deleted", bbPatch d o.path⟩) ∧
    (∀ item f, bitbucketFileOf d item = some f →
      (d f.filename).status ≠ 200 → f.patch = "") ∧
    (∀ (items : List DiffstatItem) (d' : String → HttpResp),
      (bitbucket_files d items).map FileChange.filename =
      (bitbucket_files d' items).map FileChange.filename) := by
  have hfn : ∀ (d₀ : String → HttpResp) item f, bitbucketFileOf d₀ item = some f →
      (d₀ f.filename).status ≠ 200 → f.patch = "" := by
    intro d₀ item f hf hs
    obtain ⟨iold, inew⟩ := item
    cases inew with
    | some n =>
      simp only [bitbucketFileOf, Option.some.injEq] at hf
      have hfile : f.filename = n.path := by rw [← hf]
      rw [hfile] at hs
      rw [← hf]
      simp [if_neg hs]
    | none =>
      cases iold with
      | some o =>
        simp only [bitbucketFileOf, Option.some.injEq] at hf
        have hfile : f.filename = o.path := by rw [← hf]
        rw [hfile] at hs
        rw [← hf]
        simp [if_neg hs]
      | none => simp [bitbucketFileOf] at hf
  refine ⟨?_, ?_, ?_, ?_, hfn d, ?_⟩
  · intro n; simp [bitbucketFileOf, bbPatch]
  · intro o n h
    simp [bitbucketFileOf, bbPatch, bne_iff_ne, h]
  · intro o n h
    simp [bitbucketFileOf, bbPatch, h]
  · intro o; simp [bitbucketFileOf, bbPatch]
  · intro items d'
    induction items with
    | nil => rfl
    | cons item rest ih =>
      obtain ⟨iold, inew⟩ := item
      cases inew with
      | some n => simpa [bitbucket_files, bitbucketFileOf] using ih
      | none =>
        cases iold with
        | some o => simpa [bitbucket_files, bitbucketFileOf] using ih
        | none => simpa [bitbucket_files, bitbucketFileOf] using ih

/-- Witness for C3 at a concrete rename entry whose diff request fails
with status 404. -/
theorem bitbucket_status_and_patch_wit :
    bitbucketFileOf (fun _ => HttpResp.mk 404 "BODY") ⟨some ⟨"a"⟩, some ⟨"b"⟩⟩ =
      some ⟨"b", "renamed", bbPatch (fun _ => HttpResp.mk 404 "BODY") "b"⟩ ∧
    (FileChange.mk "b" "renamed" "").patch = "" := by
  constructor
  · exact (bitbucket_status_and_patch (fun _ => HttpResp.mk 404 "BODY")).2.1 ⟨"a"⟩ ⟨"b"⟩
      (by decide)
  · exact (bitbucket_status_and_patch (fun _ => HttpResp.mk 404 "BODY")).2.2.2.2.1
      ⟨some ⟨"a"⟩, some ⟨"b"⟩⟩ (FileChange.mk "b" "renamed" "") (by decide) (by decide)

/-- C6: the example `REVIEWERS_JSON` array yields exactly
`[alice, bob]` (the entry lacking both fields is dropped), and any value
that does not parse as a JSON array of objects - unparseable text, a
non-array value, or an array with a non-object element - yields the
empty reviewer list through the exception handler, which the total
function `parse_reviewers` models. -/
theorem reviewers_json_parsing :
    parse_reviewers "[\x7b\"login\":\"alice\"\x7d,\x7b\"nickname\":\"bob\"\x7d,\x7b\x7d]" =
      [.str "alice", .str "bob"] ∧
    parse_reviewers "not json" = [] ∧
    (∀ s, json_loads s = none → parse_reviewers s = []) ∧
    (∀ s v, json_loads s = some v → (∀ items, v ≠ JValue.arr items) →
      parse_reviewers s = []) ∧
    (∀ s items, json_loads s = some (.arr items) → allObjFields items = none →
      parse_reviewers s = []) := by
  refine ⟨rfl, rfl, ?_, ?_, ?_⟩
  · intro s h
    unfold parse_reviewers
    rw [h]
  · intro s v h hv
    unfold parse_reviewers
    rw [h]
    cases v with
    | arr items => exact absurd rfl (hv items)
    | null => rfl
    | bool b => rfl
    | num n => rfl
    | str s => rfl
    | obj f => rfl
  · intro s items h hm
    unfold parse_reviewers
    rw [h]
    simp [reviewersFrom, hm]

/-- Witness for C6 at three concrete non-array-of-objects inputs. -/
theorem reviewers_json_parsing_wit :
    parse_reviewers "xyz" = [] ∧ parse_reviewers "\"a string\"" = [] ∧
    parse_reviewers "[1]" = [] := by
  refine ⟨reviewers_json_parsing.2.2.1 "xyz" (by rfl), ?_, ?_⟩
  · exact reviewers_json_parsing.2.2.2.1 "\"a string\"" (.str "a string") (by rfl)
      (fun items h => by cases h)
  · exact reviewers_json_parsing.2.2.2.2 "[1]" [.num 1] (by rfl) (by rfl)

/-- C10: an entry with a truthy login uses the login even when a nickname
is present; an empty-string login falls through to the nickname; and the
reviewer list is the in-order filter of the per-entry picks, hence
preserves the order of the input array. -/
theorem reviewer_identifier_selection :
    (∀ l n : String, l ≠ "" →
      pickReviewer [("login", .str l), ("nickname", .str n)] = .str l) ∧
    (∀ n : String, pickReviewer [("login", .str ""), ("nickname", .str n)] = .str n) ∧
    (∀ items objs, allObjFields items = some objs →
      reviewersFrom (.arr items) = (objs.map pickReviewer).filter truthy ∧
      ((objs.map pickReviewer).filter truthy).Sublist (objs.map pickReviewer)) ∧
    reviewersFrom (.arr [.obj [("login", .str "x"), ("nickname", .str "y")],
      .obj [("login", .str ""), ("nickname", .str "z")], .obj [("nickname", .str "w")]]) =
      [.str "x", .str "z", .str "w"] := by
  refine ⟨?_, ?_, ?_, rfl⟩
  · intro l n h
    simp [pickReviewer, dictGet, List.lookup, truthy, h]
  · intro n
    simp [pickReviewer, dictGet, List.lookup, truthy]
  · intro items objs h
    exact ⟨by simp [reviewersFrom, h], List.filter_sublist _⟩

/-- Witness for C10 at a concrete entry carrying both fields and a
concrete one-entry array. -/
theorem reviewer_identifier_selection_wit :
    pickReviewer [("login", .str "alice"), ("nickname", .str "bob")] = .str "alice" ∧
    (reviewersFrom (.arr [.obj [("login", .str "alice")]]) =
      (([[("login", JValue.str "alice")]].map pickReviewer).filter truthy)) := by
  constructor
  · exact reviewer_identifier_selection.1 "alice" "bob" (by decide)
  · exact (reviewer_identifier_selection.2.2.1 [.obj [("login", .str "alice")]]
      [[("login", JValue.str "alice")]] (by rfl)).1

/-- C1: when neither `GITHUB_ACTIONS` nor `BITBUCKET_PIPELINE_UUID` is
set and `BASE_REF` or `HEAD_REF` is unset, `main` ends with the fatal
non-zero exit and never reaches the write of the output file. -/
theorem main_no_platform_missing_refs_fatal (w : World)
    (hg : w.env "GITHUB_ACTIONS" = none)
    (hb : w.env "BITBUCKET_PIPELINE_UUID" = none)
    (hr : w.env "BASE_REF" = none ∨ w.env "HEAD_REF" = none) :
    main w = .fatal 1 ∧ ∀ p pl, main w ≠ MainOutcome.wrote p pl := by
  have hplat : detect_platform w.env = none := by
    simp [detect_platform, envTruthy, hg, hb]
  have hfetch : fetch_pr_data_via_git w.env w.git = .ok none := by
    rcases hr with h | h <;>
      simp [fetch_pr_data_via_git, envTruthy, h]
  have hmain : main w = .fatal 1 := by
    simp [main, hplat, hfetch]
  exact ⟨hmain, fun p pl hc => by rw [hmain] at hc; cases hc⟩

/-- Witness for C1 at a concrete world with an empty environment. -/
theorem main_no_platform_missing_refs_fatal_wit :
    main ⟨fun _ => none, none, none, ⟨fun _ => .ok ""⟩, .dir "repo" [] [],
      fun _ => none⟩ = .fatal 1 :=
  (main_no_platform_missing_refs_fatal
    ⟨fun _ => none, none, none, ⟨fun _ => .ok ""⟩, .dir "repo" [] [], fun _ => none⟩
    rfl rfl (Or.inl rfl)).1

/-- C4: `extract_linked_issues` is deterministic (a second run on the
same body and URL returns the same result), keyword matching is
case-insensitive (bodies equal up to ASCII case yield the same issue
titles and URLs), issue numbers are deduplicated so the produced titles
are pairwise distinct, and on the body
`This closes #42 and also fixes #42 again` exactly one issue for `#42`
results, whose provenance note names `closes`. -/
theorem extract_linked_issues_idem_ci_dedup :
    (∀ b u : String, extract_linked_issues b u = extract_linked_issues b u) ∧
    (∀ b₁ b₂ u : String, b₁.data.map lc = b₂.data.map lc →
      (extract_linked_issues b₁ u).map (fun i => (i.title, i.url)) =
      (extract_linked_issues b₂ u).map (fun i => (i.title, i.url))) ∧
    (∀ b u : String, ((extract_linked_issues b u).map LinkedIssue.title).Nodup) ∧
    extract_linked_issues "This closes #42 and also fixes #42 again" "https://x/pull/5" =
      [⟨"Issue #42", "Linked via keyword " ++ quoteSq "closes", "https://x/issues/42"⟩] := by
  refine ⟨fun b u => rfl, ?_, ?_, by decide⟩
  · intro b₁ b₂ u h
    exact extract_ci b₁ b₂ u h
  · intro b u
    unfold extract_linked_issues
    by_cases h : b = ""
    · simp [h]
    · simp only [h, if_false]
      exact dedupIssues_titles_nodup _ _ _

/-- Witness for C4: the case-insensitivity conjunct applied to the
concrete bodies `Fixes #9` and `FIXES #9`. -/
theorem extract_linked_issues_idem_ci_dedup_wit :
    (extract_linked_issues "Fixes #9" "https://x/pull/5").map (fun i => (i.title, i.url)) =
    (extract_linked_issues "FIXES #9" "https://x/pull/5").map (fun i => (i.title, i.url)) :=
  extract_linked_issues_idem_ci_dedup.2.1 "Fixes #9" "FIXES #9" "https://x/pull/5"
    (by decide)

/-- C5: every linked issue URL is the PR URL with the pull segment
replaced by `/issues/`, the trailing PR number removed, and the issue
number appended; on PR URL `https://github.com/acme/widgets/pull/17` and
body `Fixes #9` the issue URL is
`https://github.com/acme/widgets/issues/9`. -/
theorem linked_issue_url_derivation :
    (∀ b u : String, ∀ i ∈ extract_linked_issues b u,
      ∃ idStr, i.url = base_issue_url u ++ "/" ++ idStr ∧ i.title = "Issue #" ++ idStr) ∧
    extract_linked_issues "Fixes #9" "https://github.com/acme/widgets/pull/17" =
      [⟨"Issue #9", "Linked via keyword " ++ quoteSq "Fixes",
        "https://github.com/acme/widgets/issues/9"⟩] := by
  constructor
  · intro b u i hi
    unfold extract_linked_issues at hi
    by_cases h : b = ""
    · simp [h] at hi
    · simp only [h, if_false] at hi
      obtain ⟨kw, idStr, he, -⟩ :=
        dedupIssues_shape (base_issue_url u) (findAllMatches b.data) [] i hi
      exact ⟨idStr, by rw [he]; rfl, by rw [he]; rfl⟩
  · decide

/-- Witness for C5: the URL-shape conjunct applied to the concrete
extracted issue for `#9`. -/
theorem linked_issue_url_derivation_wit :
    ∃ idStr,
      (LinkedIssue.mk "Issue #9" ("Linked via keyword " ++ quoteSq "Fixes")
        "https://github.com/acme/widgets/issues/9").url =
        base_issue_url "https://github.com/acme/widgets/pull/17" ++ "/" ++ idStr ∧
      (LinkedIssue.mk "Issue #9" ("Linked via keyword " ++ quoteSq "Fixes")
        "https://github.com/acme/widgets/issues/9").title = "Issue #" ++ idStr :=
  linked_issue_url_derivation.1 "Fixes #9" "https://github.com/acme/widgets/pull/17"
    (LinkedIssue.mk "Issue #9" ("Linked via keyword " ++ quoteSq "Fixes")
      "https://github.com/acme/widgets/issues/9") (by decide)

end GeneratePayload
